import Mathlib

/-!
Shallow embedding of the polito_collaborations_dashboard scripts:
`build_collaborations.py` (root variant and `python_scripts/` variant share
`get_institution_country_code` and `build_collaborations` verbatim) and
`python_scripts/build_all_datasets.py`.

Modelling conventions:
  * A JSON field that may be absent or `null` is an `Option`; a Python value
    that is absent or `null` is `none`; the string truthiness tests of the
    source (`if not x`) become explicit `= ""` / `= none` case splits.
  * The HTTP lookup of `get_institution_country_code` is a parameter
    `net : String → Option String`: `net sid = some cc` models a 200 response
    whose body yielded `data.get("country_code") or ""` equal to `cc`
    (so `some ""` is a successful-but-empty response), and `net sid = none`
    models a transport failure, a non-200 status, or a malformed body.
    The resolver additionally returns the number of external calls it made,
    so that "no external lookup happened" is a provable statement.
  * Python dicts preserve insertion order, so the `by_country` dict and the
    resolver cache are association lists; a fresh cache entry is consed, a
    fresh country bucket is appended at the end, exactly as insertion order
    dictates.
  * Each country bucket carries, besides the `country_code` and
    `collaborations` fields of the source dict, a ghost field `triples`
    recording the dedup key `(work_id, inst.get("id"), cc)` of each appended
    collaboration record, in order.  The source record itself does not store
    the institution id, so the per-triple dedup invariant is stated on this
    ghost trace; the control flow is exactly that of the source.
  * CSV coordinates are only ever copied, never computed with, so they are
    modelled as rationals.
-/

def ROR_POLITO : String := "https://ror.org/00bgk9508"

structure Institution where
  id : Option String
  country_code : Option String
  ror : Option String
  display_name : Option String
deriving DecidableEq, Repr

structure Authorship where
  institutions : List Institution
deriving DecidableEq, Repr

structure Work where
  id : Option String
  display_name : Option String
  title : Option String
  publication_year : Option Int
  authorships : List Authorship
deriving DecidableEq, Repr

/-- The characters after the last `/`, the whole string when there is none:
`inst_id.rsplit("/", 1)[-1]`. -/
def rsplitLastAux (cur : List Char) : List Char → List Char
  | [] => cur.reverse
  | c :: cs => if c = '/' then rsplitLastAux [] cs else rsplitLastAux (c :: cur) cs

def rsplitLast (s : String) : String := ⟨rsplitLastAux [] s.data⟩

/-- Model of `get_institution_country_code(inst, cache)` from `build_collaborations.py`,
with the HTTP GET abstracted to `net` and an extra component counting the
external calls performed (0 or 1). -/
def get_institution_country_code (net : String → Option String)
    (inst : Institution) (cache : List (String × String)) :
    String × List (String × String) × Nat :=
  let fallback :=
    match inst.id with
    | none => ("", cache, 0)
    | some iid =>
      if iid = "" then ("", cache, 0)
      else
        let sid := rsplitLast iid
        match List.lookup sid cache with
        | some v => (v, cache, 0)
        | none =>
          match net sid with
          | some cc => (cc, (sid, cc) :: cache, 1)
          | none => ("", cache, 1)
  match inst.country_code with
  | some cc => if cc = "" then fallback else (cc, cache, 0)
  | none => fallback

/-- The short lookup key the resolver would use for `inst`, when the embedded
country code is absent or empty and the institution id is usable. -/
def shortFromId : Option String → Option String
  | none => none
  | some s => if s = "" then none else some (rsplitLast s)

def needsRemote (inst : Institution) : Option String :=
  match inst.country_code with
  | some cc => if cc = "" then shortFromId inst.id else none
  | none => shortFromId inst.id

/-- The test `inst.get("ror") == ROR_POLITO`. -/
def instIsPolito (inst : Institution) : Bool := inst.ror == some ROR_POLITO

/-- The `has_polito` test shared by both aggregation scripts. -/
def has_polito (w : Work) : Bool :=
  w.authorships.any (fun a => a.institutions.any instIsPolito)

/-- All institutions of a work, authorships in order, institutions in order:
the iteration order of the nested `for auth / for inst` loops. -/
def flatInsts (w : Work) : List Institution :=
  w.authorships.flatMap (·.institutions)

/-- The expression `work.get("display_name") or work.get("title")`. -/
def titleOf (w : Work) : Option String :=
  match w.display_name with
  | some s => if s = "" then w.title else some s
  | none => w.title

structure Collab where
  partner : Option String
  dataset_id : Option String
  title : Option String
  year : Option Int
deriving DecidableEq, Repr

/-- The dedup key `(work_id, inst.get("id"), country_code)`. -/
abbrev Triple := Option String × Option String × String

structure Bucket where
  country_code : String
  collaborations : List Collab
  triples : List Triple
deriving DecidableEq, Repr

/-- The `external_pairs` collection loop: every non-Polito institution is
resolved (threading the cache) and kept when its code is non-empty. -/
def collectPairs (net : String → Option String) :
    List Institution → List (String × String) →
    List (Institution × String) × List (String × String)
  | [], cache => ([], cache)
  | inst :: rest, cache =>
    if instIsPolito inst then collectPairs net rest cache
    else
      let r := get_institution_country_code net inst cache
      let tail := collectPairs net rest r.2.1
      if r.1 = "" then tail else ((inst, r.1) :: tail.1, tail.2)

/-- Model of the `by_country[cc]` creation-or-append: a missing bucket is created at the
end (dict insertion order), an existing one gets the record appended. -/
def appendCollab : List (String × Bucket) → String → Collab → Triple →
    List (String × Bucket)
  | [], cc, r, t => [(cc, ⟨cc, [r], [t]⟩)]
  | (k, b) :: rest, cc, r, t =>
    if k = cc then
      (k, ⟨b.country_code, b.collaborations ++ [r], b.triples ++ [t]⟩) :: rest
    else (k, b) :: appendCollab rest cc r t

/-- The per-work loop over `external_pairs` with the `seen_for_work_country`
set (modelled as the list of keys already added for this work). -/
def addPairs (wid : Option String) (title : Option String) (year : Option Int) :
    List (Institution × String) → List Triple → List (String × Bucket) →
    List (String × Bucket)
  | [], _, bc => bc
  | (inst, cc) :: rest, seen, bc =>
    if (wid, inst.id, cc) ∈ seen then addPairs wid title year rest seen bc
    else
      addPairs wid title year rest ((wid, inst.id, cc) :: seen)
        (appendCollab bc cc ⟨inst.display_name, wid, title, year⟩ (wid, inst.id, cc))

/-- One iteration of the `for work in works` loop of `build_collaborations`;
the state is the resolver cache plus the `by_country` dict. -/
def stepWork (net : String → Option String)
    (st : List (String × String) × List (String × Bucket)) (w : Work) :
    List (String × String) × List (String × Bucket) :=
  if has_polito w then
    let pr := collectPairs net (flatInsts w) st.1
    if pr.1 = [] then (pr.2, st.2)
    else (pr.2, addPairs w.id (titleOf w) w.publication_year pr.1 [] st.2)
  else st

/-- Model of `build_collaborations(works)` (identical in both script variants). -/
def build_collaborations (net : String → Option String) (works : List Work) :
    List (String × Bucket) :=
  (works.foldl (stepWork net) ([], [])).2

structure Dataset where
  dataset_id : String
  title : Option String
  year : Option Int
deriving DecidableEq, Repr

/-- One iteration of the `for work in works` loop of `build_all_datasets`;
the state is `(seen_ids, all_datasets)`. -/
def dedupStep (st : List String × List Dataset) (w : Work) :
    List String × List Dataset :=
  if has_polito w then
    match w.id with
    | none => st
    | some i =>
      if i = "" then st
      else if i ∈ st.1 then st
      else (i :: st.1, st.2 ++ [⟨i, titleOf w, w.publication_year⟩])
  else st

/-- Comparator of the final sort of `build_all_datasets`: descending by
`(year or 0, title or "")`, i.e. `a` comes before `b` when its key is
lexicographically at least `b`'s. -/
def datasetLe (a b : Dataset) : Bool :=
  decide ((b.year.getD 0) < (a.year.getD 0) ∨
    ((a.year.getD 0) = (b.year.getD 0) ∧ (b.title.getD "") ≤ (a.title.getD "")))

/-- Model of `build_all_datasets(works)` from `python_scripts/build_all_datasets.py`. -/
def build_all_datasets (works : List Work) : List Dataset :=
  ((works.foldl dedupStep ([], [])).2).mergeSort datasetLe

/-- Comparator of the per-country collaboration sort in both `main`s:
descending by `(c.get("year") or 0, c.get("partner") or "")`. -/
def collabLe (a b : Collab) : Bool :=
  decide ((b.year.getD 0) < (a.year.getD 0) ∨
    ((a.year.getD 0) = (b.year.getD 0) ∧ (b.partner.getD "") ≤ (a.partner.getD "")))

structure EntryS where
  country_code : String
  collaborations_count : Nat
  collaborations : List Collab
deriving DecidableEq, Repr

def entryLeS (a b : EntryS) : Bool :=
  decide (b.collaborations_count ≤ a.collaborations_count)

/-- The report assembly of `main` in the root `build_collaborations.py`
(no country-table enrichment): per-country entries in dict order, inner
lists sorted, then the whole list sorted by count descending. -/
def mainSimple (net : String → Option String) (works : List Work) :
    List EntryS :=
  ((build_collaborations net works).map
    (fun p => ⟨p.1, p.2.collaborations.length, p.2.collaborations.mergeSort collabLe⟩)).mergeSort
    entryLeS

structure CountryInfo where
  name : String
  latitude : Rat
  longitude : Rat
  coords : List Rat
deriving DecidableEq, Repr

structure EntryE where
  country_code : String
  collaborations_count : Nat
  collaborations : List Collab
  country : CountryInfo
deriving DecidableEq, Repr

def entryLeE (a b : EntryE) : Bool :=
  decide (b.collaborations_count ≤ a.collaborations_count)

/-- The `country` object attached to an entry by `main` of
`python_scripts/build_collaborations.py`: the country-table row when the
code is present (rows produced by `load_country_codes` always carry all four
fields, so the `.get` defaults are exact copies), otherwise the fallback
`{name: cc, latitude: 0, longitude: 0, coords: [0, 0]}`. -/
def countryFor (cmap : List (String × CountryInfo)) (cc : String) : CountryInfo :=
  match List.lookup cc cmap with
  | some info => ⟨info.name, info.latitude, info.longitude, info.coords⟩
  | none => ⟨cc, 0, 0, [0, 0]⟩

/-- The report assembly of `main` in `python_scripts/build_collaborations.py`
(entries enriched with country-table data). -/
def mainEnriched (net : String → Option String)
    (cmap : List (String × CountryInfo)) (works : List Work) : List EntryE :=
  ((build_collaborations net works).map
    (fun p => ⟨p.1, p.2.collaborations.length,
      p.2.collaborations.mergeSort collabLe, countryFor cmap p.1⟩)).mergeSort
    entryLeE

/-! ### Concrete fixtures used by counterexamples and witnesses -/

/-- A network oracle on which every external lookup fails. -/
def cexNet : String → Option String := fun _ => none

/-- A network oracle on which every external lookup succeeds with "DE". -/
def cexNetDE : String → Option String := fun _ => some "DE"

def cexInstPolito : Institution :=
  ⟨some "https://openalex.org/I100", none, some ROR_POLITO, some "Polito"⟩

def cexInstFR : Institution :=
  ⟨some "https://openalex.org/I1", some "FR", none, some "UnivX"⟩

/-- An institution with no embedded country code, forcing a remote lookup. -/
def cexInstRemote : Institution :=
  ⟨some "https://openalex.org/I9", none, none, some "RemoteU"⟩

def cexAuth : Authorship := ⟨[cexInstPolito, cexInstFR]⟩

def cexAuthRemote : Authorship := ⟨[cexInstPolito, cexInstRemote]⟩

def cexAuthSolo : Authorship := ⟨[cexInstRemote]⟩

/-- A work in which the same remote-resolved institution occupies two
authorship slots. -/
def cexWorkRemote : Work :=
  ⟨some "w4", some "Study D", none, some 2022, [cexAuthRemote, cexAuthSolo]⟩

def cexWork : Work := ⟨some "w1", some "Study A", none, some 2021, [cexAuth]⟩

def cexWorkNoPolito : Work :=
  ⟨some "w3", some "Study C", none, some 2020, [⟨[cexInstFR]⟩]⟩

/-- A pure-internal work (only Polito institutions) with a missing id. -/
def cexWorkInternal : Work :=
  ⟨none, some "Study B", none, some 2019, [⟨[cexInstPolito]⟩]⟩

/-- A pure-internal work (only Polito institutions) with id "w2". -/
def cexWorkInternalId : Work :=
  ⟨some "w2", some "Study B", none, some 2019, [⟨[cexInstPolito]⟩]⟩

/-! ### Basic step lemmas -/

lemma stepWork_not_polito (net : String → Option String)
    (st : List (String × String) × List (String × Bucket)) (w : Work)
    (h : has_polito w = false) : stepWork net st w = st := by
  simp [stepWork, h]

lemma dedupStep_not_polito (st : List String × List Dataset) (w : Work)
    (h : has_polito w = false) : dedupStep st w = st := by
  simp [dedupStep, h]

/-- C3. Works without a Polito institution contribute nothing: removing such a
work from the input changes neither `build_collaborations` (resolver cache
included, since the skip happens before any resolution) nor
`build_all_datasets`. -/
theorem c3_no_target_work_excluded (net : String → Option String)
    (l1 l2 : List Work) (w : Work) (h : has_polito w = false) :
    build_collaborations net (l1 ++ w :: l2) = build_collaborations net (l1 ++ l2) ∧
    build_all_datasets (l1 ++ w :: l2) = build_all_datasets (l1 ++ l2) := by
  constructor
  · unfold build_collaborations
    rw [List.foldl_append, List.foldl_append, List.foldl_cons,
      stepWork_not_polito net _ w h]
  · unfold build_all_datasets
    rw [List.foldl_append, List.foldl_append, List.foldl_cons,
      dedupStep_not_polito _ w h]

theorem c3_witness :
    build_collaborations cexNet ([] ++ cexWorkNoPolito :: [cexWork]) =
      build_collaborations cexNet ([] ++ [cexWork]) ∧
    build_all_datasets ([] ++ cexWorkNoPolito :: [cexWork]) =
      build_all_datasets ([] ++ [cexWork]) :=
  c3_no_target_work_excluded cexNet [] [cexWork] cexWorkNoPolito (by decide)

/-! ### Resolver lemmas -/

lemma get_embedded (net : String → Option String) (inst : Institution)
    (cache : List (String × String)) (cc : String)
    (h : inst.country_code = some cc) (h2 : cc ≠ "") :
    get_institution_country_code net inst cache = (cc, cache, 0) := by
  simp [get_institution_country_code, h, h2]

/-- C5. When the institution record carries a non-empty embedded country code,
the resolver returns exactly it, with the cache returned unchanged and zero
external calls performed; the result does not depend on the network oracle or
on the cache contents at all. -/
theorem c5_embedded_code_no_lookup (net : String → Option String)
    (inst : Institution) (cache : List (String × String)) (cc : String)
    (h : inst.country_code = some cc) (h2 : cc ≠ "") :
    get_institution_country_code net inst cache = (cc, cache, 0) :=
  get_embedded net inst cache cc h h2

theorem c5_witness :
    get_institution_country_code cexNet cexInstFR [("I9", "DE")] = ("FR", [("I9", "DE")], 0) :=
  c5_embedded_code_no_lookup cexNet cexInstFR [("I9", "DE")] "FR" rfl (by decide)

lemma get_of_needsRemote (net : String → Option String) (inst : Institution)
    (cache : List (String × String)) (sid : String)
    (h : needsRemote inst = some sid) :
    get_institution_country_code net inst cache =
      match List.lookup sid cache with
      | some v => (v, cache, 0)
      | none =>
        match net sid with
        | some cc => (cc, (sid, cc) :: cache, 1)
        | none => ("", cache, 1) := by
  unfold needsRemote at h
  unfold get_institution_country_code
  cases hcc : inst.country_code with
  | none =>
    rw [hcc] at h
    unfold shortFromId at h
    cases hid : inst.id with
    | none => simp [hid] at h
    | some s =>
      simp only [hid] at h
      by_cases hs : s = ""
      · simp [hs] at h
      · simp only [hs, if_false, Option.some.injEq] at h
        subst h
        simp [hs]
  | some c =>
    simp only [hcc] at h
    by_cases hc : c = ""
    · rw [if_pos hc] at h
      unfold shortFromId at h
      cases hid : inst.id with
      | none => simp [hid] at h
      | some s =>
        simp only [hid] at h
        by_cases hs : s = ""
        · simp [hs] at h
        · simp only [hs, if_false, Option.some.injEq] at h
          subst h
          simp [hc, hs]
    · rw [if_neg hc] at h
      exact absurd h (by simp)

lemma get_of_no_remote (net : String → Option String) (inst : Institution)
    (cache : List (String × String)) (h : needsRemote inst = none) :
    (get_institution_country_code net inst cache).2.1 = cache := by
  unfold needsRemote at h
  unfold get_institution_country_code
  cases hcc : inst.country_code with
  | none =>
    rw [hcc] at h
    unfold shortFromId at h
    cases hid : inst.id with
    | none => simp [hid]
    | some s =>
      simp only [hid] at h
      by_cases hs : s = ""
      · simp [hid, hs]
      · simp [hs] at h
  | some c =>
    simp only [hcc] at h
    by_cases hc : c = ""
    · rw [if_pos hc] at h
      unfold shortFromId at h
      cases hid : inst.id with
      | none => simp [hid, hc]
      | some s =>
        simp only [hid] at h
        by_cases hs : s = ""
        · simp [hid, hc, hs]
        · simp [hs] at h
    · simp [hc]

lemma lookup_cons_of_fresh (k sid cc v : String) (cache : List (String × String))
    (hk : List.lookup k cache = some v) (hs : List.lookup sid cache = none) :
    List.lookup k ((sid, cc) :: cache) = some v := by
  have hne : sid ≠ k := by
    rintro rfl
    rw [hk] at hs
    cases hs
  have hb : (k == sid) = false := beq_eq_false_iff_ne.mpr (Ne.symm hne)
  simp [List.lookup, hne, hb, hk]

lemma get_cache_write_once (net : String → Option String) (inst : Institution)
    (cache : List (String × String)) (k v : String)
    (hk : List.lookup k cache = some v) :
    List.lookup k (get_institution_country_code net inst cache).2.1 = some v := by
  cases hn : needsRemote inst with
  | none => rw [get_of_no_remote net inst cache hn]; exact hk
  | some sid =>
    rw [get_of_needsRemote net inst cache sid hn]
    cases hc : List.lookup sid cache with
    | some w => simpa using hk
    | none =>
      cases hnet : net sid with
      | some cc =>
        simpa using lookup_cons_of_fresh k sid cc v cache hk hc
      | none => simpa using hk

/-- C6. Cache discipline of the resolver, for every institution whose embedded
code is absent or empty and whose id yields a short key `sid`:
(1) a cache hit is returned as-is with no external call;
(2) a cache miss followed by a successful lookup (including a
successful-but-empty `some ""`) returns the looked-up code, stores it under
`sid`, and makes exactly one external call;
(3) a cache miss followed by a failed lookup returns `""`, stores nothing,
and the failed result is not cached;
(4) after a successful lookup, a later call for the same short key returns the
cached value with zero external calls, whatever the later oracle answers;
(5) an existing cache entry is never overwritten by any call (write-once). -/
theorem c6_cache_discipline :
    (∀ (net : String → Option String) (inst : Institution) cache sid v,
      needsRemote inst = some sid → List.lookup sid cache = some v →
      get_institution_country_code net inst cache = (v, cache, 0)) ∧
    (∀ (net : String → Option String) (inst : Institution) cache sid cc,
      needsRemote inst = some sid → List.lookup sid cache = none →
      net sid = some cc →
      get_institution_country_code net inst cache = (cc, (sid, cc) :: cache, 1)) ∧
    (∀ (net : String → Option String) (inst : Institution) cache sid,
      needsRemote inst = some sid → List.lookup sid cache = none →
      net sid = none →
      get_institution_country_code net inst cache = ("", cache, 1)) ∧
    (∀ (net net2 : String → Option String) (inst inst2 : Institution) cache sid cc,
      needsRemote inst = some sid → needsRemote inst2 = some sid →
      List.lookup sid cache = none → net sid = some cc →
      get_institution_country_code net2 inst2
          (get_institution_country_code net inst cache).2.1 =
        (cc, (get_institution_country_code net inst cache).2.1, 0)) ∧
    (∀ (net : String → Option String) (inst : Institution) cache k v,
      List.lookup k cache = some v →
      List.lookup k (get_institution_country_code net inst cache).2.1 = some v) := by
  have hit : ∀ (net : String → Option String) (inst : Institution) cache sid v,
      needsRemote inst = some sid → List.lookup sid cache = some v →
      get_institution_country_code net inst cache = (v, cache, 0) := by
    intro net inst cache sid v hn hc
    rw [get_of_needsRemote net inst cache sid hn, hc]
  have store : ∀ (net : String → Option String) (inst : Institution) cache sid cc,
      needsRemote inst = some sid → List.lookup sid cache = none →
      net sid = some cc →
      get_institution_country_code net inst cache = (cc, (sid, cc) :: cache, 1) := by
    intro net inst cache sid cc hn hc hnet
    rw [get_of_needsRemote net inst cache sid hn, hc, hnet]
  refine ⟨hit, store, ?_, ?_, ?_⟩
  · intro net inst cache sid hn hc hnet
    rw [get_of_needsRemote net inst cache sid hn, hc, hnet]
  · intro net net2 inst inst2 cache sid cc hn hn2 hc hnet
    rw [store net inst cache sid cc hn hc hnet]
    exact hit net2 inst2 ((sid, cc) :: cache) sid cc hn2 (by simp [List.lookup])
  · exact fun net inst cache k v hk => get_cache_write_once net inst cache k v hk

theorem c6_witness :
    get_institution_country_code cexNetDE cexInstRemote [] = ("DE", [("I9", "DE")], 1) ∧
    get_institution_country_code cexNet cexInstRemote
        (get_institution_country_code cexNetDE cexInstRemote []).2.1 =
      ("DE", (get_institution_country_code cexNetDE cexInstRemote []).2.1, 0) ∧
    get_institution_country_code cexNet cexInstRemote [] = ("", [], 1) ∧
    List.lookup "I9" (get_institution_country_code cexNetDE cexInstRemote [("I9", "FR")]).2.1 =
      some "FR" :=
  ⟨c6_cache_discipline.2.1 cexNetDE cexInstRemote [] "I9" "DE" (by decide) rfl rfl,
   c6_cache_discipline.2.2.2.1 cexNetDE cexNet cexInstRemote cexInstRemote [] "I9" "DE"
     (by decide) (by decide) rfl rfl,
   c6_cache_discipline.2.2.1 cexNet cexInstRemote [] "I9" (by decide) rfl rfl,
   c6_cache_discipline.2.2.2.2 cexNetDE cexInstRemote [("I9", "FR")] "I9" "FR" (by decide)⟩

/-! ### Bucket observers and the per-work dedup lemma -/

/-- The ghost trace of dedup keys recorded in the bucket stored under `cc`
(`[]` when no such bucket exists). -/
def bucketTriples (cc : String) : List (String × Bucket) → List Triple
  | [] => []
  | (k, b) :: rest => if k = cc then b.triples else bucketTriples cc rest

/-- The dedup keys the per-work loop derives from a pair list. -/
def pairKeys (wid : Option String) (pairs : List (Institution × String)) :
    List Triple :=
  pairs.map (fun pr => (wid, pr.1.id, pr.2))

lemma bucketTriples_appendCollab (bc : List (String × Bucket)) (cc : String)
    (r : Collab) (t : Triple) (k : String) :
    bucketTriples k (appendCollab bc cc r t) =
      if k = cc then bucketTriples k bc ++ [t] else bucketTriples k bc := by
  induction bc with
  | nil =>
    by_cases hk : k = cc
    · subst hk; simp [appendCollab, bucketTriples]
    · have h2 : ¬cc = k := fun h => hk h.symm
      simp [appendCollab, bucketTriples, hk, h2]
  | cons p rest ih =>
    obtain ⟨k', b⟩ := p
    by_cases hk' : k' = cc
    · subst hk'
      by_cases hkk : k = k'
      · subst hkk; simp [appendCollab, bucketTriples]
      · have h2 : ¬k' = k := fun h => hkk h.symm
        simp [appendCollab, bucketTriples, hkk, h2]
    · by_cases hk'k : k' = k
      · subst hk'k
        have h2 : ¬k' = cc := hk'
        have h3 : ¬k' = cc := hk'
        simp [appendCollab, bucketTriples, h2, h3]
      · simp [appendCollab, bucketTriples, hk', hk'k, ih]

lemma addPairs_triples (wid : Option String) (title : Option String)
    (year : Option Int) (pairs : List (Institution × String)) :
    ∀ (seen : List Triple) (bc : List (String × Bucket)) (k : String),
    ∃ Δ : List Triple,
      bucketTriples k (addPairs wid title year pairs seen bc) =
        bucketTriples k bc ++ Δ ∧
      Δ.Nodup ∧
      (∀ tr ∈ Δ, tr.1 = wid ∧ tr ∉ seen ∧ tr.2.2 = k) ∧
      (∀ tr ∈ pairKeys wid pairs, tr ∉ seen → tr.2.2 = k → tr ∈ Δ) := by
  induction pairs with
  | nil =>
    intro seen bc k
    exact ⟨[], by simp [addPairs], List.nodup_nil, by simp, by simp [pairKeys]⟩
  | cons pr rest ih =>
    obtain ⟨inst, cc⟩ := pr
    intro seen bc k
    by_cases hin : (wid, inst.id, cc) ∈ seen
    · obtain ⟨Δ, h1, h2, h3, h4⟩ := ih seen bc k
      refine ⟨Δ, ?_, h2, h3, ?_⟩
      · rw [show addPairs wid title year ((inst, cc) :: rest) seen bc =
            addPairs wid title year rest seen bc from by simp [addPairs, hin]]
        exact h1
      · intro tr htr hns hk2
        rcases (by simpa [pairKeys] using htr :
            tr = (wid, inst.id, cc) ∨ tr ∈ pairKeys wid rest) with heq | hmem
        · exact absurd (heq ▸ hin) hns
        · exact h4 tr hmem hns hk2
    · have hstep : addPairs wid title year ((inst, cc) :: rest) seen bc =
          addPairs wid title year rest ((wid, inst.id, cc) :: seen)
            (appendCollab bc cc ⟨inst.display_name, wid, title, year⟩
              (wid, inst.id, cc)) := by
        simp [addPairs, hin]
      obtain ⟨Δ, h1, h2, h3, h4⟩ := ih ((wid, inst.id, cc) :: seen)
        (appendCollab bc cc ⟨inst.display_name, wid, title, year⟩ (wid, inst.id, cc)) k
      by_cases hk : k = cc
      · refine ⟨(wid, inst.id, cc) :: Δ, ?_, ?_, ?_, ?_⟩
        · rw [hstep, h1, bucketTriples_appendCollab, if_pos hk, List.append_assoc,
            List.singleton_append]
        · refine List.nodup_cons.mpr ⟨?_, h2⟩
          intro hmem
          exact (h3 _ hmem).2.1 (List.mem_cons_self _ _)
        · intro tr htr
          rcases List.mem_cons.mp htr with heq | hmem
          · subst heq
            exact ⟨rfl, hin, hk.symm⟩
          · obtain ⟨hw, hn, hkk⟩ := h3 tr hmem
            exact ⟨hw, fun hs => hn (List.mem_cons_of_mem _ hs), hkk⟩
        · intro tr htr hns hk2
          rcases (by simpa [pairKeys] using htr :
              tr = (wid, inst.id, cc) ∨ tr ∈ pairKeys wid rest) with heq | hmem
          · exact heq ▸ List.mem_cons_self _ _
          · by_cases htreq : tr = (wid, inst.id, cc)
            · exact htreq ▸ List.mem_cons_self _ _
            · have : tr ∉ (wid, inst.id, cc) :: seen := by
                intro hmem2
                rcases List.mem_cons.mp hmem2 with h | h
                · exact htreq h
                · exact hns h
              exact List.mem_cons_of_mem _ (h4 tr hmem this hk2)
      · refine ⟨Δ, ?_, h2, ?_, ?_⟩
        · rw [hstep, h1, bucketTriples_appendCollab, if_neg hk]
        · intro tr htr
          obtain ⟨hw, hn, hkk⟩ := h3 tr htr
          exact ⟨hw, fun hs => hn (List.mem_cons_of_mem _ hs), hkk⟩
        · intro tr htr hns hk2
          have htrne : tr ≠ (wid, inst.id, cc) := by
            intro heq
            exact hk (by rw [← hk2, heq])
          rcases (by simpa [pairKeys] using htr :
              tr = (wid, inst.id, cc) ∨ tr ∈ pairKeys wid rest) with heq | hmem
          · exact absurd heq htrne
          · have : tr ∉ (wid, inst.id, cc) :: seen := by
              intro hmem2
              rcases List.mem_cons.mp hmem2 with h | h
              · exact htrne h
              · exact hns h
            exact h4 tr hmem this hk2

lemma count_eq_one_of_mem_nodup {α : Type} [BEq α] [LawfulBEq α] {l : List α}
    {a : α} (hnd : l.Nodup) (hmem : a ∈ l) : l.count a = 1 := by
  induction l with
  | nil => cases hmem
  | cons x xs ih =>
    rcases List.mem_cons.mp hmem with rfl | hmemx
    · have hx : a ∉ xs := (List.nodup_cons.mp hnd).1
      rw [List.count_cons_self, List.count_eq_zero_of_not_mem hx]
    · have hne : a ≠ x := by
        rintro rfl
        exact (List.nodup_cons.mp hnd).1 hmemx
      rw [List.count_cons_of_ne hne]
      exact ih (List.nodup_cons.mp hnd).2 hmemx

lemma mem_collectPairs (net : String → Option String) (inst : Institution)
    (cc : String) (hpol : instIsPolito inst = false)
    (hcc : inst.country_code = some cc) (hne : cc ≠ "") :
    ∀ (insts : List Institution) (cache : List (String × String)),
      inst ∈ insts → (inst, cc) ∈ (collectPairs net insts cache).1 := by
  intro insts
  induction insts with
  | nil => intro cache h; cases h
  | cons i rest ih =>
    intro cache hmem
    by_cases hp : instIsPolito i
    · rcases List.mem_cons.mp hmem with heq | hrest
      · exact absurd (heq ▸ hp) (by simp [hpol])
      · simpa [collectPairs, hp] using ih cache hrest
    · rcases List.mem_cons.mp hmem with heq | hrest
      · subst heq
        have hr := get_embedded net inst cache cc hcc hne
        simp [collectPairs, hp, hr, hne]
      · have hmem' := ih (get_institution_country_code net i cache).2.1 hrest
        by_cases hr1 : (get_institution_country_code net i cache).1 = ""
        · simpa [collectPairs, hp, hr1] using hmem'
        · simp only [collectPairs, hp, if_false, Bool.false_eq_true, hr1, if_neg]
          exact List.mem_cons_of_mem _ hmem'

/-- C2. For a work with a Polito author in which two authorships reference
external institutions with the identical institution id, both resolving
during the aggregation of that work — by the embedded code, a cache hit, or
a successful external lookup, i.e. both occurrences surviving into the
collected external pairs — to the identical country code, the aggregator
records the triple (work id, institution id, country code) exactly once in
that country's bucket. -/
theorem c2_single_record_per_triple (net : String → Option String) (w : Work)
    (a1 a2 : Authorship) (inst1 inst2 : Institution) (cc : String)
    (ha1 : a1 ∈ w.authorships) (ha2 : a2 ∈ w.authorships)
    (hi1 : inst1 ∈ a1.institutions) (hi2 : inst2 ∈ a2.institutions)
    (hid : inst1.id = inst2.id)
    (hp1 : instIsPolito inst1 = false) (hp2 : instIsPolito inst2 = false)
    (hres1 : (inst1, cc) ∈ (collectPairs net (flatInsts w) []).1)
    (hres2 : (inst2, cc) ∈ (collectPairs net (flatInsts w) []).1)
    (hpol : has_polito w = true) :
    (bucketTriples cc (build_collaborations net [w])).count
      (w.id, inst1.id, cc) = 1 := by
  have hprne : (collectPairs net (flatInsts w) []).1 ≠ [] :=
    List.ne_nil_of_mem hres1
  have hb : build_collaborations net [w] =
      addPairs w.id (titleOf w) w.publication_year
        (collectPairs net (flatInsts w) []).1 [] [] := by
    simp [build_collaborations, stepWork, hpol, hprne]
  obtain ⟨Δ, h1, h2, h3, h4⟩ :=
    addPairs_triples w.id (titleOf w) w.publication_year
      (collectPairs net (flatInsts w) []).1 [] [] cc
  have hkeys : (w.id, inst1.id, cc) ∈
      pairKeys w.id (collectPairs net (flatInsts w) []).1 := by
    exact List.mem_map_of_mem _ hres1
  have hkΔ : (w.id, inst1.id, cc) ∈ Δ :=
    h4 _ hkeys (by simp) rfl
  rw [hb, h1]
  simpa [bucketTriples] using count_eq_one_of_mem_nodup h2 hkΔ

theorem c2_witness :
    (bucketTriples "DE" (build_collaborations cexNetDE [cexWorkRemote])).count
      (cexWorkRemote.id, cexInstRemote.id, "DE") = 1 :=
  c2_single_record_per_triple cexNetDE cexWorkRemote cexAuthRemote cexAuthSolo
    cexInstRemote cexInstRemote "DE" (by decide) (by decide) (by decide)
    (by decide) rfl (by decide) (by decide) (by decide) (by decide) (by decide)

/-! ### Bucket key lemmas and the cross-work dedup invariant -/

lemma keys_appendCollab (bc : List (String × Bucket)) (cc : String) (r : Collab)
    (t : Triple) :
    (appendCollab bc cc r t).map Prod.fst =
      if cc ∈ bc.map Prod.fst then bc.map Prod.fst else bc.map Prod.fst ++ [cc] := by
  induction bc with
  | nil => simp [appendCollab]
  | cons p rest ih =>
    obtain ⟨k', b⟩ := p
    by_cases hk' : k' = cc
    · subst hk'
      simp [appendCollab]
    · have hne : ¬cc = k' := fun h => hk' h.symm
      by_cases hmem : cc ∈ rest.map Prod.fst
      · simp [appendCollab, hk', ih, hmem, hne]
      · simp [appendCollab, hk', ih, hmem, hne]

lemma keysNodup_appendCollab {bc : List (String × Bucket)} (cc : String)
    (r : Collab) (t : Triple) (h : (bc.map Prod.fst).Nodup) :
    ((appendCollab bc cc r t).map Prod.fst).Nodup := by
  rw [keys_appendCollab]
  by_cases hmem : cc ∈ bc.map Prod.fst
  · simpa [hmem] using h
  · simp only [hmem, if_false]
    exact List.Nodup.append h (List.nodup_singleton cc)
      (by simpa [List.disjoint_singleton] using hmem)

lemma keysNodup_addPairs (wid : Option String) (title : Option String)
    (year : Option Int) (pairs : List (Institution × String)) :
    ∀ (seen : List Triple) (bc : List (String × Bucket)),
      (bc.map Prod.fst).Nodup →
      ((addPairs wid title year pairs seen bc).map Prod.fst).Nodup := by
  induction pairs with
  | nil => intro seen bc h; simpa [addPairs] using h
  | cons pr rest ih =>
    obtain ⟨inst, cc⟩ := pr
    intro seen bc h
    by_cases hin : (wid, inst.id, cc) ∈ seen
    · simpa [addPairs, hin] using ih seen bc h
    · simpa [addPairs, hin] using
        ih ((wid, inst.id, cc) :: seen) _ (keysNodup_appendCollab cc _ _ h)

lemma bucketTriples_of_mem : ∀ (bc : List (String × Bucket)) (p : String × Bucket),
    p ∈ bc → (bc.map Prod.fst).Nodup → bucketTriples p.1 bc = p.2.triples := by
  intro bc
  induction bc with
  | nil => intro p hp; cases hp
  | cons q rest ih =>
    obtain ⟨k', b'⟩ := q
    intro p hp hnd
    rcases List.mem_cons.mp hp with heq | hrest
    · subst heq
      simp [bucketTriples]
    · have hk'p : k' ≠ p.1 := by
        intro heq
        have : p.1 ∈ rest.map Prod.fst := List.mem_map_of_mem Prod.fst hrest
        exact (List.nodup_cons.mp hnd).1 (heq ▸ this)
      simp only [bucketTriples, hk'p, if_neg]
      exact ih p hrest (List.nodup_cons.mp hnd).2

lemma stepWork_triples_inv (net : String → Option String) (w : Work)
    (cache : List (String × String)) (bc : List (String × Bucket))
    (done : List (Option String)) (hw : w.id ∉ done)
    (hkeys : (bc.map Prod.fst).Nodup)
    (hbt : ∀ k, (bucketTriples k bc).Nodup ∧
      ∀ tr ∈ bucketTriples k bc, tr.1 ∈ done) :
    (((stepWork net (cache, bc) w).2.map Prod.fst).Nodup ∧
      ∀ k, (bucketTriples k (stepWork net (cache, bc) w).2).Nodup ∧
        ∀ tr ∈ bucketTriples k (stepWork net (cache, bc) w).2,
          tr.1 ∈ w.id :: done) := by
  by_cases hpol : has_polito w
  · by_cases hemp : (collectPairs net (flatInsts w) cache).1 = []
    · have hst : (stepWork net (cache, bc) w).2 = bc := by
        simp [stepWork, hpol, hemp]
      rw [hst]
      exact ⟨hkeys, fun k => ⟨(hbt k).1,
        fun tr htr => List.mem_cons_of_mem _ ((hbt k).2 tr htr)⟩⟩
    · have hst : (stepWork net (cache, bc) w).2 =
          addPairs w.id (titleOf w) w.publication_year
            (collectPairs net (flatInsts w) cache).1 [] bc := by
        simp [stepWork, hpol, hemp]
      rw [hst]
      refine ⟨keysNodup_addPairs _ _ _ _ [] bc hkeys, fun k => ?_⟩
      obtain ⟨Δ, h1, h2, h3, _⟩ :=
        addPairs_triples w.id (titleOf w) w.publication_year
          (collectPairs net (flatInsts w) cache).1 [] bc k
      rw [h1]
      constructor
      · refine List.Nodup.append (hbt k).1 h2 ?_
        intro tr htrold htrnew
        have h1mem : tr.1 ∈ done := (hbt k).2 tr htrold
        have h1new : tr.1 = w.id := (h3 tr htrnew).1
        exact hw (h1new ▸ h1mem)
      · intro tr htr
        rcases List.mem_append.mp htr with hold | hnew
        · exact List.mem_cons_of_mem _ ((hbt k).2 tr hold)
        · rw [(h3 tr hnew).1]
          exact List.mem_cons_self _ _
  · have hst : (stepWork net (cache, bc) w).2 = bc := by
      simp [stepWork, hpol]
    rw [hst]
    exact ⟨hkeys, fun k => ⟨(hbt k).1,
      fun tr htr => List.mem_cons_of_mem _ ((hbt k).2 tr htr)⟩⟩

lemma foldl_triples_inv (net : String → Option String) :
    ∀ (works : List Work) (cache : List (String × String))
      (bc : List (String × Bucket)) (done : List (Option String)),
    (works.map Work.id).Nodup → (∀ w ∈ works, w.id ∉ done) →
    (bc.map Prod.fst).Nodup →
    (∀ k, (bucketTriples k bc).Nodup ∧
      ∀ tr ∈ bucketTriples k bc, tr.1 ∈ done) →
    (((works.foldl (stepWork net) (cache, bc)).2.map Prod.fst).Nodup ∧
      ∀ k, (bucketTriples k (works.foldl (stepWork net) (cache, bc)).2).Nodup) := by
  intro works
  induction works with
  | nil =>
    intro cache bc done _ _ hkeys hbt
    exact ⟨hkeys, fun k => (hbt k).1⟩
  | cons w rest ih =>
    intro cache bc done hnd hdone hkeys hbt
    have hw : w.id ∉ done := hdone w (List.mem_cons_self _ _)
    obtain ⟨hkeys', hbt'⟩ :=
      stepWork_triples_inv net w cache bc done hw hkeys hbt
    have hrest : ∀ w' ∈ rest, w'.id ∉ w.id :: done := by
      intro w' hw' hmem
      rcases List.mem_cons.mp hmem with heq | hin
      · have : w.id ∈ rest.map Work.id := heq ▸ List.mem_map_of_mem Work.id hw'
        exact (List.nodup_cons.mp (by simpa using hnd)).1 this
      · exact hdone w' (List.mem_cons_of_mem _ hw') hin
    have := ih (stepWork net (cache, bc) w).1 (stepWork net (cache, bc) w).2
      (w.id :: done) (by simpa using (List.nodup_cons.mp (by simpa using hnd)).2)
      hrest hkeys' hbt'
    simpa [List.foldl_cons] using this

/-- C1 as stated is false: when the same work record (hence the same work
identifier) occurs twice in the input list, the per-work dedup set is reset
between the two occurrences and the very same (work id, institution id,
country code) triple is appended twice to the same country bucket. -/
theorem c1_counterexample :
    ∃ p ∈ build_collaborations cexNet [cexWork, cexWork], ¬p.2.triples.Nodup := by
  decide

/-- C1 (amended): provided no two work records of the input share the same
work identifier value (a missing identifier counting as a value), every
country bucket records each (work id, institution id, country code) triple
at most once. -/
theorem c1_triple_unique (net : String → Option String) (works : List Work)
    (h : (works.map Work.id).Nodup) :
    ∀ p ∈ build_collaborations net works, p.2.triples.Nodup := by
  intro p hp
  obtain ⟨hkeys, hbt⟩ := foldl_triples_inv net works [] [] [] h (by simp)
    (by simp) (by intro k; simp [bucketTriples])
  have heq : bucketTriples p.1 (works.foldl (stepWork net) ([], [])).2 =
      p.2.triples :=
    bucketTriples_of_mem _ p hp hkeys
  rw [show p.2.triples =
    bucketTriples p.1 (works.foldl (stepWork net) ([], [])).2 from heq.symm]
  exact hbt p.1

theorem c1_witness :
    (Bucket.triples ⟨"FR",
      [⟨some "UnivX", some "w1", some "Study A", some 2021⟩],
      [(some "w1", some "https://openalex.org/I1", "FR")]⟩).Nodup :=
  c1_triple_unique cexNet [cexWork] (by decide)
    ("FR", ⟨"FR", [⟨some "UnivX", some "w1", some "Study A", some 2021⟩],
      [(some "w1", some "https://openalex.org/I1", "FR")]⟩) (by decide)

/-! ### Bucket well-formedness (C10) -/

/-- Every stored bucket has a non-empty key, an embedded `country_code` equal
to its key, and a non-empty collaborations list. -/
def GoodBC (bc : List (String × Bucket)) : Prop :=
  ∀ p ∈ bc, p.1 ≠ "" ∧ p.2.country_code = p.1 ∧ p.2.collaborations ≠ []

lemma goodBC_appendCollab {bc : List (String × Bucket)} {cc : String}
    (r : Collab) (t : Triple) (hcc : cc ≠ "") (h : GoodBC bc) :
    GoodBC (appendCollab bc cc r t) := by
  induction bc with
  | nil =>
    intro p hp
    have hp' : p = (cc, ⟨cc, [r], [t]⟩) := by simpa [appendCollab] using hp
    subst hp'
    exact ⟨hcc, rfl, by simp⟩
  | cons q rest ih =>
    obtain ⟨k', b⟩ := q
    by_cases hk' : k' = cc
    · subst hk'
      intro p hp
      rcases List.mem_cons.mp (by simpa [appendCollab] using hp) with heq | h2
      · subst heq
        obtain ⟨h1, h2, _⟩ := h (k', b) (List.mem_cons_self _ _)
        exact ⟨h1, h2, by simp⟩
      · exact h p (List.mem_cons_of_mem _ h2)
    · intro p hp
      rcases List.mem_cons.mp (by simpa [appendCollab, hk'] using hp) with heq | h2
      · exact heq ▸ h (k', b) (List.mem_cons_self _ _)
      · exact ih (fun q hq => h q (List.mem_cons_of_mem _ hq)) p h2

lemma goodBC_addPairs (wid : Option String) (title : Option String)
    (year : Option Int) (pairs : List (Institution × String)) :
    ∀ (seen : List Triple) (bc : List (String × Bucket)),
      (∀ pr ∈ pairs, pr.2 ≠ "") → GoodBC bc →
      GoodBC (addPairs wid title year pairs seen bc) := by
  induction pairs with
  | nil => intro seen bc _ h; simpa [addPairs] using h
  | cons pr rest ih =>
    obtain ⟨inst, cc⟩ := pr
    intro seen bc hne h
    have hccne : cc ≠ "" := hne (inst, cc) (List.mem_cons_self _ _)
    have hrest : ∀ pr ∈ rest, pr.2 ≠ "" :=
      fun pr hpr => hne pr (List.mem_cons_of_mem _ hpr)
    by_cases hin : (wid, inst.id, cc) ∈ seen
    · simpa [addPairs, hin] using ih seen bc hrest h
    · simpa [addPairs, hin] using
        ih ((wid, inst.id, cc) :: seen) _ hrest (goodBC_appendCollab _ _ hccne h)

lemma collectPairs_snd_ne (net : String → Option String) :
    ∀ (insts : List Institution) (cache : List (String × String))
      (pr : Institution × String),
      pr ∈ (collectPairs net insts cache).1 → pr.2 ≠ "" := by
  intro insts
  induction insts with
  | nil => intro cache pr h; simp [collectPairs] at h
  | cons i rest ih =>
    intro cache pr hpr
    by_cases hp : instIsPolito i
    · exact ih cache pr (by simpa [collectPairs, hp] using hpr)
    · by_cases hr1 : (get_institution_country_code net i cache).1 = ""
      · exact ih _ pr (by simpa [collectPairs, hp, hr1] using hpr)
      · rcases List.mem_cons.mp (by simpa [collectPairs, hp, hr1] using hpr)
          with heq | hmem
        · subst heq; exact hr1
        · exact ih _ pr hmem

lemma goodBC_stepWork (net : String → Option String)
    (st : List (String × String) × List (String × Bucket)) (w : Work)
    (h : GoodBC st.2) : GoodBC (stepWork net st w).2 := by
  by_cases hpol : has_polito w
  · by_cases hemp : (collectPairs net (flatInsts w) st.1).1 = []
    · simpa [stepWork, hpol, hemp] using h
    · have hst : (stepWork net st w).2 =
          addPairs w.id (titleOf w) w.publication_year
            (collectPairs net (flatInsts w) st.1).1 [] st.2 := by
        simp [stepWork, hpol, hemp]
      rw [hst]
      exact goodBC_addPairs _ _ _ _ [] st.2
        (fun pr hpr => collectPairs_snd_ne net (flatInsts w) st.1 pr hpr) h
  · simpa [stepWork, hpol] using h

/-- C10. In the mapping returned by `build_collaborations`, every key is a
non-empty country code, every bucket's embedded `country_code` equals its
key, and every bucket's collaborations list is non-empty. -/
theorem c10_bucket_invariants (net : String → Option String) (works : List Work)
    (p : String × Bucket) (hp : p ∈ build_collaborations net works) :
    p.1 ≠ "" ∧ p.2.country_code = p.1 ∧ p.2.collaborations ≠ [] := by
  have main : ∀ (ws : List Work) (st : List (String × String) × List (String × Bucket)),
      GoodBC st.2 → GoodBC (ws.foldl (stepWork net) st).2 := by
    intro ws
    induction ws with
    | nil => intro st h; exact h
    | cons w rest ih =>
      intro st h
      simpa [List.foldl_cons] using ih (stepWork net st w) (goodBC_stepWork net st w h)
  exact main works ([], []) (by intro q hq; cases hq) p hp

theorem c10_witness :
    ("FR" : String) ≠ "" ∧
    (Bucket.country_code ⟨"FR",
      [⟨some "UnivX", some "w1", some "Study A", some 2021⟩],
      [(some "w1", some "https://openalex.org/I1", "FR")]⟩) = "FR" ∧
    (Bucket.collaborations ⟨"FR",
      [⟨some "UnivX", some "w1", some "Study A", some 2021⟩],
      [(some "w1", some "https://openalex.org/I1", "FR")]⟩) ≠ [] :=
  c10_bucket_invariants cexNet [cexWork]
    ("FR", ⟨"FR", [⟨some "UnivX", some "w1", some "Study A", some 2021⟩],
      [(some "w1", some "https://openalex.org/I1", "FR")]⟩) (by decide)

/-! ### Pure-internal works and deduplicator fold lemmas -/

lemma collectPairs_all_polito (net : String → Option String) :
    ∀ (insts : List Institution) (cache : List (String × String)),
      (∀ i ∈ insts, instIsPolito i = true) →
      collectPairs net insts cache = ([], cache) := by
  intro insts
  induction insts with
  | nil => intro cache _; rfl
  | cons i rest ih =>
    intro cache hall
    have hp : instIsPolito i = true := hall i (List.mem_cons_self _ _)
    simpa [collectPairs, hp] using
      ih cache (fun j hj => hall j (List.mem_cons_of_mem _ hj))

lemma stepWork_all_polito (net : String → Option String)
    (st : List (String × String) × List (String × Bucket)) (w : Work)
    (hall : ∀ i ∈ flatInsts w, instIsPolito i = true) :
    stepWork net st w = st := by
  by_cases hpol : has_polito w
  · have hcp := collectPairs_all_polito net (flatInsts w) st.1 hall
    simp [stepWork, hpol, hcp]
  · simp [stepWork, hpol]

lemma dedupStep_acc_mono (st : List String × List Dataset) (w : Work)
    (r : Dataset) (h : r ∈ st.2) : r ∈ (dedupStep st w).2 := by
  unfold dedupStep
  repeat' split
  all_goals first | exact h | exact List.mem_append_left _ h

lemma dedup_foldl_acc_mono :
    ∀ (works : List Work) (st : List String × List Dataset) (r : Dataset),
      r ∈ st.2 → r ∈ (works.foldl dedupStep st).2 := by
  intro works
  induction works with
  | nil => intro st r h; exact h
  | cons w rest ih =>
    intro st r h
    simpa [List.foldl_cons] using ih (dedupStep st w) r (dedupStep_acc_mono st w r h)

lemma dedupStep_seen_sub (st : List String × List Dataset) (w : Work) (x : String)
    (h : x ∈ (dedupStep st w).1) : x ∈ st.1 ∨ w.id = some x := by
  by_cases hpol : has_polito w
  · cases hid : w.id with
    | none => left; simpa [dedupStep, hpol, hid] using h
    | some i =>
      by_cases hi : i = ""
      · left; simpa [dedupStep, hpol, hid, hi] using h
      · by_cases hseen : i ∈ st.1
        · left; simpa [dedupStep, hpol, hid, hi, hseen] using h
        · have h' : x ∈ i :: st.1 := by
            simpa [dedupStep, hpol, hid, hi, hseen] using h
          rcases List.mem_cons.mp h' with rfl | hm
          · right; rfl
          · left; exact hm
  · left; simpa [dedupStep, hpol] using h

lemma dedup_foldl_seen_sub :
    ∀ (works : List Work) (st : List String × List Dataset) (x : String),
      x ∈ (works.foldl dedupStep st).1 →
      x ∈ st.1 ∨ ∃ w ∈ works, w.id = some x := by
  intro works
  induction works with
  | nil => intro st x h; exact Or.inl h
  | cons w rest ih =>
    intro st x h
    rcases ih (dedupStep st w) x (by simpa [List.foldl_cons] using h) with h1 | h2
    · rcases dedupStep_seen_sub st w x h1 with hst | hw
      · exact Or.inl hst
      · exact Or.inr ⟨w, List.mem_cons_self _ _, hw⟩
    · obtain ⟨w', hw', hid⟩ := h2
      exact Or.inr ⟨w', List.mem_cons_of_mem _ hw', hid⟩

lemma dedup_first_occurrence_adds (l1 : List Work) (w : Work) (l2 : List Work)
    (hpol : has_polito w = true) (i : String) (hid : w.id = some i)
    (hi : i ≠ "") (hfresh : ∀ w' ∈ l1, w'.id ≠ some i) :
    (⟨i, titleOf w, w.publication_year⟩ : Dataset) ∈
      ((l1 ++ w :: l2).foldl dedupStep ([], [])).2 := by
  rw [List.foldl_append, List.foldl_cons]
  have hnotseen : i ∉ (l1.foldl dedupStep ([], [])).1 := by
    intro hmem
    rcases dedup_foldl_seen_sub l1 ([], []) i hmem with h | ⟨w', hw', hid'⟩
    · simp at h
    · exact hfresh w' hw' hid'
  have hstep : (dedupStep (l1.foldl dedupStep ([], [])) w).2 =
      (l1.foldl dedupStep ([], [])).2 ++ [⟨i, titleOf w, w.publication_year⟩] := by
    simp [dedupStep, hpol, hid, hi, hnotseen]
  apply dedup_foldl_acc_mono l2
  rw [hstep]
  exact List.mem_append_right _ (List.mem_cons_self _ _)

/-- C4 as stated is false: a pure-internal work with a missing work identifier
is excluded by `build_all_datasets` too (the claim promises one record for
every pure-internal work). -/
theorem c4_counterexample :
    (∀ inst ∈ flatInsts cexWorkInternal, instIsPolito inst = true) ∧
    build_collaborations cexNet [cexWorkInternal] = [] ∧
    build_all_datasets [cexWorkInternal] = [] := by
  refine ⟨by decide, by decide, ?_⟩
  have hfold : ([cexWorkInternal].foldl dedupStep ([], [])).2 = [] := by decide
  unfold build_all_datasets
  rw [hfold, List.mergeSort_nil]

/-- C4 (amended): every work whose institutions all match the Polito marker
contributes nothing to `build_collaborations` (cache included), with no
further condition; and `build_all_datasets` includes its record provided it
passes the membership test, has a non-empty work identifier, and no earlier
work carries that identifier. -/
theorem c4_pure_internal (net : String → Option String) (l1 l2 : List Work)
    (w : Work) (hall : ∀ inst ∈ flatInsts w, instIsPolito inst = true) :
    build_collaborations net (l1 ++ w :: l2) = build_collaborations net (l1 ++ l2) ∧
    ∀ i : String, has_polito w = true → w.id = some i → i ≠ "" →
      (∀ w' ∈ l1, w'.id ≠ some i) →
      (⟨i, titleOf w, w.publication_year⟩ : Dataset) ∈
        build_all_datasets (l1 ++ w :: l2) := by
  constructor
  · unfold build_collaborations
    rw [List.foldl_append, List.foldl_append, List.foldl_cons,
      stepWork_all_polito net _ w hall]
  · intro i hpol hid hi hfresh
    unfold build_all_datasets
    exact (List.mergeSort_perm _ _).mem_iff.mpr
      (dedup_first_occurrence_adds l1 w l2 hpol i hid hi hfresh)

theorem c4_witness :
    build_collaborations cexNet ([] ++ cexWorkInternal :: [cexWork]) =
      build_collaborations cexNet ([] ++ [cexWork]) ∧
    build_collaborations cexNet ([] ++ cexWorkInternalId :: [cexWork]) =
      build_collaborations cexNet ([] ++ [cexWork]) ∧
    (⟨"w2", titleOf cexWorkInternalId, cexWorkInternalId.publication_year⟩ : Dataset) ∈
      build_all_datasets ([] ++ cexWorkInternalId :: [cexWork]) :=
  ⟨(c4_pure_internal cexNet [] [cexWork] cexWorkInternal (by decide)).1,
   (c4_pure_internal cexNet [] [cexWork] cexWorkInternalId (by decide)).1,
   (c4_pure_internal cexNet [] [cexWork] cexWorkInternalId (by decide)).2 "w2"
     (by decide) rfl (by decide) (by decide)⟩

/-! ### Deduplicator invariants and sorting (C7) -/

lemma dedupStep_inv (st : List String × List Dataset) (w : Work)
    (h1 : st.2.map (fun d => d.dataset_id) = st.1.reverse) (h2 : st.1.Nodup)
    (h3 : ∀ x ∈ st.1, x ≠ "") :
    (dedupStep st w).2.map (fun d => d.dataset_id) = (dedupStep st w).1.reverse ∧
    (dedupStep st w).1.Nodup ∧ ∀ x ∈ (dedupStep st w).1, x ≠ "" := by
  by_cases hpol : has_polito w
  · cases hid : w.id with
    | none => simp only [dedupStep, hpol, if_true, hid]; exact ⟨h1, h2, h3⟩
    | some i =>
      by_cases hi : i = ""
      · simpa [dedupStep, hpol, hid, hi] using ⟨h1, h2, h3⟩
      · by_cases hseen : i ∈ st.1
        · simpa [dedupStep, hpol, hid, hi, hseen] using ⟨h1, h2, h3⟩
        · have hst : dedupStep st w =
              (i :: st.1, st.2 ++ [⟨i, titleOf w, w.publication_year⟩]) := by
            simp [dedupStep, hpol, hid, hi, hseen]
          rw [hst]
          refine ⟨?_, List.nodup_cons.mpr ⟨hseen, h2⟩, ?_⟩
          · simp [h1, List.reverse_cons]
          · intro x hx
            rcases List.mem_cons.mp hx with rfl | hm
            · exact hi
            · exact h3 x hm
  · simpa [dedupStep, hpol] using ⟨h1, h2, h3⟩

lemma dedup_foldl_inv :
    ∀ (works : List Work) (st : List String × List Dataset),
      st.2.map (fun d => d.dataset_id) = st.1.reverse → st.1.Nodup →
      (∀ x ∈ st.1, x ≠ "") →
      ((works.foldl dedupStep st).2.map (fun d => d.dataset_id) =
          (works.foldl dedupStep st).1.reverse ∧
        (works.foldl dedupStep st).1.Nodup ∧
        ∀ x ∈ (works.foldl dedupStep st).1, x ≠ "") := by
  intro works
  induction works with
  | nil => intro st h1 h2 h3; exact ⟨h1, h2, h3⟩
  | cons w rest ih =>
    intro st h1 h2 h3
    obtain ⟨h1', h2', h3'⟩ := dedupStep_inv st w h1 h2 h3
    simpa [List.foldl_cons] using ih (dedupStep st w) h1' h2' h3'

lemma datasetLe_trans (a b c : Dataset) (hab : datasetLe a b = true)
    (hbc : datasetLe b c = true) : datasetLe a c = true := by
  simp only [datasetLe, decide_eq_true_eq] at *
  rcases hab with h1 | ⟨h1, h2⟩ <;> rcases hbc with h3 | ⟨h3, h4⟩
  · left; omega
  · left; omega
  · left; omega
  · right; exact ⟨h1.trans h3, le_trans h4 h2⟩

lemma datasetLe_total (a b : Dataset) : (datasetLe a b || datasetLe b a) = true := by
  simp only [datasetLe, Bool.or_eq_true, decide_eq_true_eq]
  rcases lt_trichotomy (a.year.getD 0) (b.year.getD 0) with h | h | h
  · exact Or.inr (Or.inl h)
  · rcases le_total (a.title.getD "") (b.title.getD "") with ht | ht
    · exact Or.inr (Or.inr ⟨h.symm, ht⟩)
    · exact Or.inl (Or.inr ⟨h, ht⟩)
  · exact Or.inl (Or.inl h)

lemma dedupStep_no_id (st : List String × List Dataset) (w : Work)
    (h : w.id = none ∨ w.id = some "") : dedupStep st w = st := by
  rcases h with h | h <;> simp [dedupStep, h]

/-- C7. The deduplicator: (1) at most one record per distinct work
identifier; (2) every emitted record carries a non-empty identifier;
(3) a work with a missing (or empty) identifier contributes nothing;
(4) the output is sorted descending by (year or 0, title or "");
(5) first occurrence wins: the record of the first Polito work carrying a
given identifier is in the output. -/
theorem c7_dedup_sorted :
    (∀ works : List Work,
      ((build_all_datasets works).map (fun d => d.dataset_id)).Nodup) ∧
    (∀ (works : List Work) (r : Dataset),
      r ∈ build_all_datasets works → r.dataset_id ≠ "") ∧
    (∀ (l1 l2 : List Work) (w : Work), w.id = none ∨ w.id = some "" →
      build_all_datasets (l1 ++ w :: l2) = build_all_datasets (l1 ++ l2)) ∧
    (∀ works : List Work,
      (build_all_datasets works).Pairwise (fun a b => datasetLe a b = true)) ∧
    (∀ (l1 l2 : List Work) (w : Work) (i : String), has_polito w = true →
      w.id = some i → i ≠ "" → (∀ w' ∈ l1, w'.id ≠ some i) →
      (⟨i, titleOf w, w.publication_year⟩ : Dataset) ∈
        build_all_datasets (l1 ++ w :: l2)) := by
  refine ⟨?_, ?_, ?_, ?_, ?_⟩
  · intro works
    obtain ⟨h1, h2, _⟩ := dedup_foldl_inv works ([], []) (by simp) (by simp) (by simp)
    have hnd : ((works.foldl dedupStep ([], [])).2.map
        (fun d => d.dataset_id)).Nodup := by
      rw [h1]; exact List.nodup_reverse.mpr h2
    exact (((List.mergeSort_perm _ datasetLe).map
      (fun d => d.dataset_id)).nodup_iff).mpr hnd
  · intro works r hr
    obtain ⟨h1, _, h3⟩ := dedup_foldl_inv works ([], []) (by simp) (by simp) (by simp)
    have hr' : r ∈ (works.foldl dedupStep ([], [])).2 :=
      (List.mergeSort_perm _ _).mem_iff.mp hr
    have : r.dataset_id ∈ (works.foldl dedupStep ([], [])).2.map
        (fun d => d.dataset_id) := List.mem_map_of_mem _ hr'
    rw [h1] at this
    exact h3 r.dataset_id (List.mem_reverse.mp this)
  · intro l1 l2 w h
    unfold build_all_datasets
    rw [List.foldl_append, List.foldl_append, List.foldl_cons, dedupStep_no_id _ w h]
  · intro works
    exact List.sorted_mergeSort datasetLe_trans datasetLe_total _
  · intro l1 l2 w i hpol hid hi hfresh
    unfold build_all_datasets
    exact (List.mergeSort_perm _ _).mem_iff.mpr
      (dedup_first_occurrence_adds l1 w l2 hpol i hid hi hfresh)

theorem c7_witness :
    ((build_all_datasets [cexWork]).map (fun d => d.dataset_id)).Nodup ∧
    (Dataset.dataset_id ⟨"w1", titleOf cexWork, cexWork.publication_year⟩) ≠ "" ∧
    build_all_datasets ([] ++ cexWorkInternal :: [cexWork]) =
      build_all_datasets ([] ++ [cexWork]) ∧
    (build_all_datasets [cexWork]).Pairwise (fun a b => datasetLe a b = true) ∧
    (⟨"w1", titleOf cexWork, cexWork.publication_year⟩ : Dataset) ∈
      build_all_datasets ([] ++ cexWork :: []) :=
  ⟨c7_dedup_sorted.1 [cexWork],
   c7_dedup_sorted.2.1 ([] ++ cexWork :: [])
     ⟨"w1", titleOf cexWork, cexWork.publication_year⟩
     (c7_dedup_sorted.2.2.2.2 [] [] cexWork "w1" (by decide) rfl (by decide)
       (by decide)),
   c7_dedup_sorted.2.2.1 [] [cexWork] cexWorkInternal (Or.inl rfl),
   c7_dedup_sorted.2.2.2.1 [cexWork],
   c7_dedup_sorted.2.2.2.2 [] [] cexWork "w1" (by decide) rfl (by decide)
     (by decide)⟩

/-! ### Report sorting (C8) -/

lemma collabLe_trans (a b c : Collab) (hab : collabLe a b = true)
    (hbc : collabLe b c = true) : collabLe a c = true := by
  simp only [collabLe, decide_eq_true_eq] at *
  rcases hab with h1 | ⟨h1, h2⟩ <;> rcases hbc with h3 | ⟨h3, h4⟩
  · left; omega
  · left; omega
  · left; omega
  · right; exact ⟨h1.trans h3, le_trans h4 h2⟩

lemma collabLe_total (a b : Collab) : (collabLe a b || collabLe b a) = true := by
  simp only [collabLe, Bool.or_eq_true, decide_eq_true_eq]
  rcases lt_trichotomy (a.year.getD 0) (b.year.getD 0) with h | h | h
  · exact Or.inr (Or.inl h)
  · rcases le_total (a.partner.getD "") (b.partner.getD "") with ht | ht
    · exact Or.inr (Or.inr ⟨h.symm, ht⟩)
    · exact Or.inl (Or.inr ⟨h, ht⟩)
  · exact Or.inl (Or.inl h)

lemma entryLeS_trans (a b c : EntryS) (hab : entryLeS a b = true)
    (hbc : entryLeS b c = true) : entryLeS a c = true := by
  simp only [entryLeS, decide_eq_true_eq] at *
  omega

lemma entryLeS_total (a b : EntryS) : (entryLeS a b || entryLeS b a) = true := by
  simp only [entryLeS, Bool.or_eq_true, decide_eq_true_eq]
  omega

lemma entryLeE_trans (a b c : EntryE) (hab : entryLeE a b = true)
    (hbc : entryLeE b c = true) : entryLeE a c = true := by
  simp only [entryLeE, decide_eq_true_eq] at *
  omega

lemma entryLeE_total (a b : EntryE) : (entryLeE a b || entryLeE b a) = true := by
  simp only [entryLeE, Bool.or_eq_true, decide_eq_true_eq]
  omega

/-- C8. In both report variants: collaborations inside each country entry are
sorted descending by (year or 0, partner or ""), and the country entries are
sorted descending by collaboration count, whatever the input order. -/
theorem c8_report_sorted :
    (∀ (net : String → Option String) (works : List Work),
      (mainSimple net works).Pairwise
        (fun a b => b.collaborations_count ≤ a.collaborations_count)) ∧
    (∀ (net : String → Option String) (works : List Work) (e : EntryS),
      e ∈ mainSimple net works →
      e.collaborations.Pairwise (fun c1 c2 =>
        c2.year.getD 0 < c1.year.getD 0 ∨
          (c1.year.getD 0 = c2.year.getD 0 ∧
            c2.partner.getD "" ≤ c1.partner.getD ""))) ∧
    (∀ (net : String → Option String) (cmap : List (String × CountryInfo))
      (works : List Work),
      (mainEnriched net cmap works).Pairwise
        (fun a b => b.collaborations_count ≤ a.collaborations_count)) ∧
    (∀ (net : String → Option String) (cmap : List (String × CountryInfo))
      (works : List Work) (e : EntryE),
      e ∈ mainEnriched net cmap works →
      e.collaborations.Pairwise (fun c1 c2 =>
        c2.year.getD 0 < c1.year.getD 0 ∨
          (c1.year.getD 0 = c2.year.getD 0 ∧
            c2.partner.getD "" ≤ c1.partner.getD ""))) := by
  refine ⟨?_, ?_, ?_, ?_⟩
  · intro net works
    exact (List.sorted_mergeSort entryLeS_trans entryLeS_total _).imp
      (fun h => by simpa [entryLeS, decide_eq_true_eq] using h)
  · intro net works e he
    obtain ⟨p, _, rfl⟩ :=
      List.mem_map.mp ((List.mergeSort_perm _ _).mem_iff.mp he)
    exact (List.sorted_mergeSort collabLe_trans collabLe_total _).imp
      (fun h => by simpa [collabLe, decide_eq_true_eq] using h)
  · intro net cmap works
    exact (List.sorted_mergeSort entryLeE_trans entryLeE_total _).imp
      (fun h => by simpa [entryLeE, decide_eq_true_eq] using h)
  · intro net cmap works e he
    obtain ⟨p, _, rfl⟩ :=
      List.mem_map.mp ((List.mergeSort_perm _ _).mem_iff.mp he)
    exact (List.sorted_mergeSort collabLe_trans collabLe_total _).imp
      (fun h => by simpa [collabLe, decide_eq_true_eq] using h)

theorem c8_witness :
    (mainSimple cexNet [cexWork]).Pairwise
      (fun a b => b.collaborations_count ≤ a.collaborations_count) ∧
    (EntryS.collaborations ⟨"FR", 1,
        [⟨some "UnivX", some "w1", some "Study A", some 2021⟩]⟩).Pairwise
      (fun c1 c2 =>
        c2.year.getD 0 < c1.year.getD 0 ∨
          (c1.year.getD 0 = c2.year.getD 0 ∧
            c2.partner.getD "" ≤ c1.partner.getD "")) ∧
    (mainEnriched cexNet [] [cexWork]).Pairwise
      (fun a b => b.collaborations_count ≤ a.collaborations_count) := by
  refine ⟨c8_report_sorted.1 cexNet [cexWork], ?_, c8_report_sorted.2.2.1 cexNet [] [cexWork]⟩
  apply c8_report_sorted.2.1 cexNet [cexWork]
  have hb : build_collaborations cexNet [cexWork] =
      [("FR", ⟨"FR", [⟨some "UnivX", some "w1", some "Study A", some 2021⟩],
        [(some "w1", some "https://openalex.org/I1", "FR")]⟩)] := by
    decide
  unfold mainSimple
  rw [hb]
  simp [List.mergeSort_singleton]

/-! ### Country enrichment (C9) -/

lemma lookup_mem {β : Type} (k : String) (l : List (String × β)) (v : β)
    (h : List.lookup k l = some v) : (k, v) ∈ l := by
  induction l with
  | nil => cases h
  | cons p rest ih =>
    obtain ⟨k', v'⟩ := p
    by_cases hbeq : (k == k') = true
    · have hk' : k' = k := (eq_of_beq hbeq).symm
      have hv : v' = v := by simpa [List.lookup, hbeq] using h
      subst hk'; subst hv
      exact List.mem_cons_self _ _
    · exact List.mem_cons_of_mem _
        (ih (by simpa [List.lookup, hbeq] using h))

/-- C9 as stated is false: a country entry whose code is missing from the
loaded country table still appears, with a fallback country object that is
drawn from no table row (here the table is empty, yet the "FR" entry carries
a country object). -/
theorem c9_counterexample :
    ¬ ∀ e ∈ mainEnriched cexNet [] [cexWork],
        ∃ p ∈ ([] : List (String × CountryInfo)), e.country = p.2 := by
  intro h
  have hb : build_collaborations cexNet [cexWork] =
      [("FR", ⟨"FR", [⟨some "UnivX", some "w1", some "Study A", some 2021⟩],
        [(some "w1", some "https://openalex.org/I1", "FR")]⟩)] := by
    decide
  have hmem : (⟨"FR", 1, [⟨some "UnivX", some "w1", some "Study A", some 2021⟩],
      ⟨"FR", 0, 0, [0, 0]⟩⟩ : EntryE) ∈ mainEnriched cexNet [] [cexWork] := by
    unfold mainEnriched
    rw [hb]
    simp [List.mergeSort_singleton, countryFor, List.lookup]
  obtain ⟨p, hp, _⟩ := h _ hmem
  cases hp

/-- C9 (amended): every element of the enriched report carries a country
object with name, latitude, longitude and coords = [latitude, longitude];
the object is the loaded table row when the country code is present in the
table, and otherwise the fallback {name: the code, 0, 0, [0, 0]} (assuming
the loaded table satisfies coords = [latitude, longitude], which
`load_country_codes` guarantees). -/
theorem c9_country_enrichment (net : String → Option String)
    (cmap : List (String × CountryInfo)) (works : List Work)
    (htable : ∀ p ∈ cmap, (Prod.snd p).coords =
      [(Prod.snd p).latitude, (Prod.snd p).longitude]) :
    ∀ e ∈ mainEnriched net cmap works,
      e.country.coords = [e.country.latitude, e.country.longitude] ∧
      ((∃ info, List.lookup e.country_code cmap = some info ∧ e.country = info) ∨
        (List.lookup e.country_code cmap = none ∧
          e.country = ⟨e.country_code, 0, 0, [0, 0]⟩)) := by
  intro e he
  obtain ⟨p, _, rfl⟩ :=
    List.mem_map.mp ((List.mergeSort_perm _ _).mem_iff.mp he)
  cases hl : List.lookup p.1 cmap with
  | some info =>
    have hco := htable (p.1, info) (lookup_mem p.1 cmap info hl)
    constructor
    · simpa [countryFor, hl] using hco
    · left
      exact ⟨info, by simpa using hl, by simp [countryFor, hl]⟩
  | none =>
    constructor
    · simp [countryFor, hl]
    · right
      exact ⟨by simpa using hl, by simp [countryFor, hl]⟩

def cexCmap : List (String × CountryInfo) := [("FR", ⟨"France", 1, 2, [1, 2]⟩)]

theorem c9_witness :
    (CountryInfo.coords ⟨"France", 1, 2, [1, 2]⟩) =
      [(CountryInfo.latitude ⟨"France", 1, 2, [1, 2]⟩),
       (CountryInfo.longitude ⟨"France", 1, 2, [1, 2]⟩)] ∧
    ((∃ info, List.lookup "FR" cexCmap = some info ∧
        (⟨"France", 1, 2, [1, 2]⟩ : CountryInfo) = info) ∨
      (List.lookup "FR" cexCmap = none ∧
        (⟨"France", 1, 2, [1, 2]⟩ : CountryInfo) = ⟨"FR", 0, 0, [0, 0]⟩)) := by
  have hb : build_collaborations cexNet [cexWork] =
      [("FR", ⟨"FR", [⟨some "UnivX", some "w1", some "Study A", some 2021⟩],
        [(some "w1", some "https://openalex.org/I1", "FR")]⟩)] := by
    decide
  have hmem : (⟨"FR", 1, [⟨some "UnivX", some "w1", some "Study A", some 2021⟩],
      ⟨"France", 1, 2, [1, 2]⟩⟩ : EntryE) ∈ mainEnriched cexNet cexCmap [cexWork] := by
    unfold mainEnriched
    rw [hb]
    simp [List.mergeSort_singleton, countryFor, cexCmap, List.lookup]
  exact c9_country_enrichment cexNet cexCmap [cexWork]
    (by intro p hp; simp [cexCmap] at hp; simp [hp]) _ hmem
